import Mathlib

/-!
Shallow embedding of the `sqlite-repr` on-disk format decoder
(crate `parser`, files `src/parser/src/*.rs`, plus the database-header
parser) together with theorems checking the natural-language
specification against it.

Machine integers are modelled as `Nat`/`Int` with explicit wrapping where
the Rust semantics makes it observable.  Fallible Rust code is modelled in
an `Except` monad whose error type distinguishes an `Err` value returned
to the caller from a Rust panic (out-of-bounds slice, `unreachable!`,
`unwrap` on `None`); a third tag models exhaustion of the explicit fuel
used to embed general recursion.
-/

set_option maxRecDepth 16384

namespace SqliteRepr

/-- Two's-complement reading of the low 64 bits of a natural number
(the value of an `i64` holding that bit pattern). -/
def toI64 (n : Nat) : Int :=
  if n % 2 ^ 64 < 2 ^ 63 then ((n % 2 ^ 64 : Nat) : Int)
  else ((n % 2 ^ 64 : Nat) : Int) - 2 ^ 64

/-- Rust `as u64` / `as usize` (64-bit target) cast of an `i64` value. -/
def u64OfI64 (v : Int) : Nat := (v % (2 ^ 64 : Int)).toNat

/-- Two's-complement reading of a `w`-bit pattern (for `i8::from_be_bytes`
and friends). -/
def toSigned (w : Nat) (n : Nat) : Int :=
  if n < 2 ^ (w - 1) then (n : Int) else (n : Int) - 2 ^ w

/-- Big-endian value of a byte run (`from_be_bytes`). -/
def beNat (l : List Nat) : Nat := l.foldl (fun a b => a * 256 + b) 0

/-- How an embedded Rust computation can fail. -/
inductive Fail where
  /-- an `Err` value returned to the caller -/
  | err : Fail
  /-- a Rust panic: out-of-bounds slice/index, `unreachable!`, `unwrap` -/
  | panic : Fail
  /-- fuel exhausted in the embedding of a non-structural recursion -/
  | nofuel : Fail
deriving DecidableEq, Repr

abbrev Res (α : Type) : Type := Except Fail α

/-- Rust slice `buf[a..b]`: panics unless `a ≤ b ≤ buf.len()`. -/
def sliceAB (buf : List Nat) (a b : Nat) : Res (List Nat) :=
  if a ≤ b ∧ b ≤ buf.length then .ok ((buf.drop a).take (b - a))
  else .error .panic

/-- Rust slice `buf[off..]`: panics unless `off ≤ buf.len()`. -/
def sliceFrom (buf : List Nat) (off : Nat) : Res (List Nat) :=
  if off ≤ buf.length then .ok (buf.drop off) else .error .panic

/-- The `slc!` macro (src/parser/src/lib.rs): a bounded big-endian read of
`len` bytes at `off`. -/
def slcBE (buf : List Nat) (off len : Nat) : Res Nat :=
  (sliceAB buf off (off + len)).map beNat

/-! ## Varint (src/parser/src/varint.rs) -/

structure Varint where
  value : Int
  bytes : List Nat
deriving DecidableEq, Repr

/-- The loop of `Varint::new`: `n` is the 0-based index of the current
byte, `acc` the low 64 bits of the `i64` accumulator, `consumed` the
bytes consumed so far in reverse order. -/
def varintGo : List Nat → Nat → Nat → List Nat → Varint
  | [], _, acc, consumed => ⟨toI64 acc, consumed.reverse⟩
  | b :: rest, n, acc, consumed =>
    if n = 8 then
      ⟨toI64 (((acc <<< 8) ||| b) % 2 ^ 64), (b :: consumed).reverse⟩
    else
      let acc' := ((acc <<< 7) ||| (b &&& 0x7F)) % 2 ^ 64
      if b &&& 0x80 = 0 then ⟨toI64 acc', (b :: consumed).reverse⟩
      else varintGo rest (n + 1) acc' (b :: consumed)

/-- `Varint::new` (src/parser/src/varint.rs:21): consume 1 to 9 bytes,
big-endian, 7 bits per byte while the high bit is set, all 8 bits of a
ninth byte. -/
def Varint.new (buf : List Nat) : Varint := varintGo buf 0 0 []

/-- The varint algorithm as worded in the specification (§4.1): returns
the accumulated 64-bit pattern and the number of bytes consumed.  `k` is
the number of bytes consumed so far. -/
def varintSpecGo : List Nat → Nat → Nat → Nat × Nat
  | [], _, acc => (acc, 0)
  | b :: rest, k, acc =>
    if k = 8 then (((acc <<< 8) ||| b) % 2 ^ 64, 1)
    else if b &&& 0x80 ≠ 0 then
      let r := varintSpecGo rest (k + 1) (((acc <<< 7) ||| (b &&& 0x7F)) % 2 ^ 64)
      (r.1, r.2 + 1)
    else (((acc <<< 7) ||| (b &&& 0x7F)) % 2 ^ 64, 1)

/-! ## Text encodings (src/src/parser/header.rs, `TextEncoding`) -/

inductive TextEncoding where
  | utf8
  | utf16le
  | utf16be
deriving DecidableEq, Repr

/-- Is `c` a UTF-8 continuation byte `0x80..=0xBF`? -/
def utf8Cont (c : Nat) : Bool := 0x80 ≤ c && c ≤ 0xBF

/-- Strict UTF-8 validity of a byte run, as checked by
`std::str::from_utf8` (rejects overlong forms and surrogates). -/
def utf8Valid : List Nat → Bool
  | [] => true
  | b :: rest =>
    if b < 0x80 then utf8Valid rest
    else if 0xC2 ≤ b && b ≤ 0xDF then
      match rest with
      | c1 :: r => utf8Cont c1 && utf8Valid r
      | [] => false
    else if b = 0xE0 then
      match rest with
      | c1 :: c2 :: r => (0xA0 ≤ c1 && c1 ≤ 0xBF) && utf8Cont c2 && utf8Valid r
      | _ => false
    else if (0xE1 ≤ b && b ≤ 0xEC) || b = 0xEE || b = 0xEF then
      match rest with
      | c1 :: c2 :: r => utf8Cont c1 && utf8Cont c2 && utf8Valid r
      | _ => false
    else if b = 0xED then
      match rest with
      | c1 :: c2 :: r => (0x80 ≤ c1 && c1 ≤ 0x9F) && utf8Cont c2 && utf8Valid r
      | _ => false
    else if b = 0xF0 then
      match rest with
      | c1 :: c2 :: c3 :: r =>
        (0x90 ≤ c1 && c1 ≤ 0xBF) && utf8Cont c2 && utf8Cont c3 && utf8Valid r
      | _ => false
    else if 0xF1 ≤ b && b ≤ 0xF3 then
      match rest with
      | c1 :: c2 :: c3 :: r =>
        utf8Cont c1 && utf8Cont c2 && utf8Cont c3 && utf8Valid r
      | _ => false
    else if b = 0xF4 then
      match rest with
      | c1 :: c2 :: c3 :: r =>
        (0x80 ≤ c1 && c1 ≤ 0x8F) && utf8Cont c2 && utf8Cont c3 && utf8Valid r
      | _ => false
    else false

/-- Well-formedness of a UTF-16 code-unit sequence: every high surrogate
is followed by a low surrogate and no lone low surrogates occur. -/
def utf16UnitsValid : List Nat → Bool
  | [] => true
  | u :: rest =>
    if 0xD800 ≤ u && u ≤ 0xDBFF then
      match rest with
      | v :: r => (0xDC00 ≤ v && v ≤ 0xDFFF) && utf16UnitsValid r
      | [] => false
    else if 0xDC00 ≤ u && u ≤ 0xDFFF then false
    else utf16UnitsValid rest

/-- Group a byte run into 16-bit units (little-endian when `le`), `none`
on odd length. -/
def utf16Units (le : Bool) : List Nat → Option (List Nat)
  | [] => some []
  | [_] => none
  | b0 :: b1 :: rest =>
    (utf16Units le rest).map
      (fun us => (if le then b1 * 256 + b0 else b0 * 256 + b1) :: us)

/-- Validity of a byte run per `String::from_utf16le` /
`String::from_utf16be`: even length and well-formed surrogates. -/
def utf16Valid (le : Bool) (bytes : List Nat) : Bool :=
  match utf16Units le bytes with
  | none => false
  | some us => utf16UnitsValid us

/-! ## Record decoder (src/parser/src/record.rs) -/

/-- The typed column values (`RecordType`).  The IEEE double of code 7 is
modelled by its raw big-endian bytes, text by its validated raw bytes. -/
inductive RecordType where
  | null
  | i8 (v : Int)
  | i16 (v : Int)
  | i24 (v : Int)
  | i32 (v : Int)
  | i48 (v : Int)
  | i64 (v : Int)
  | f64 (bits : List Nat)
  | zero (v : Int)
  | one (v : Int)
  | ten
  | eleven
  | blob (v : Option (List Nat))
  | text (v : Option (List Nat))
deriving DecidableEq, Repr

structure RecordValue where
  value : RecordType
  bytes : Option (List Nat)
deriving DecidableEq, Repr

/-- `RecordCode::size` (src/parser/src/record.rs:95): byte size of a
serial type; the final `unreachable!` arm (negative codes, 10 and 11) is
a panic. -/
def RecordCode.size (code : Int) : Res Nat :=
  if code = 0 ∨ code = 8 ∨ code = 9 ∨ code = 12 ∨ code = 13 then .ok 0
  else if code = 1 then .ok 1
  else if code = 2 then .ok 2
  else if code = 3 then .ok 3
  else if code = 4 then .ok 4
  else if code = 5 then .ok 6
  else if code = 6 then .ok 8
  else if code = 7 then .ok 8
  else if 12 ≤ code ∧ code % 2 = 0 then .ok ((code - 12) / 2).toNat
  else if 13 ≤ code ∧ code % 2 ≠ 0 then .ok ((code - 13) / 2).toNat
  else .error .panic

/-- Decode the truncated text bytes per the database encoding, surfacing
a decode failure as an `Err` (src/parser/src/record.rs:217-241). -/
def decodeText (enc : TextEncoding) (bytes : List Nat) : Res (List Nat) :=
  match enc with
  | .utf8 => if utf8Valid bytes then .ok bytes else .error .err
  | .utf16le => if utf16Valid true bytes then .ok bytes else .error .err
  | .utf16be => if utf16Valid false bytes then .ok bytes else .error .err

/-- `RecordValue::new` (src/parser/src/record.rs:118): `RecordCode::size`
is computed eagerly before the dispatch on `code`, exactly as in the
source (`let size = RecordCode::size(code);`). -/
def RecordValue.new (code : Int) (enc : TextEncoding) (buf : List Nat) :
    Res RecordValue := do
  let size ← RecordCode.size code
  if code = 0 then .ok ⟨.null, none⟩
  else if code = 1 then do
    let bytes ← sliceAB buf 0 size
    .ok ⟨.i8 (toSigned 8 (beNat bytes)), some bytes⟩
  else if code = 2 then do
    let bytes ← sliceAB buf 0 size
    .ok ⟨.i16 (toSigned 16 (beNat bytes)), some bytes⟩
  else if code = 3 then do
    let bytes ← sliceAB buf 0 size
    .ok ⟨.i24 (toSigned 32 (beNat (0 :: bytes))), some bytes⟩
  else if code = 4 then do
    let bytes ← sliceAB buf 0 size
    .ok ⟨.i32 (toSigned 32 (beNat bytes)), some bytes⟩
  else if code = 5 then do
    let bytes ← sliceAB buf 0 size
    .ok ⟨.i48 (toSigned 64 (beNat (0 :: 0 :: bytes))), some bytes⟩
  else if code = 6 then do
    let bytes ← sliceAB buf 0 size
    .ok ⟨.i64 (toSigned 64 (beNat bytes)), some bytes⟩
  else if code = 7 then do
    let bytes ← sliceAB buf 0 size
    .ok ⟨.f64 bytes, some bytes⟩
  else if code = 8 then .ok ⟨.zero 0, none⟩
  else if code = 9 then .ok ⟨.one 1, none⟩
  else if code = 10 then .ok ⟨.ten, none⟩
  else if code = 11 then .ok ⟨.eleven, none⟩
  else if 12 ≤ code ∧ code % 2 = 0 then
    let maxSize := min size buf.length
    if 0 < maxSize then
      let bytes := buf.take maxSize
      .ok ⟨.blob (some bytes), some bytes⟩
    else .ok ⟨.blob none, none⟩
  else if 13 ≤ code ∧ code % 2 ≠ 0 then
    let maxSize := min size buf.length
    if 0 < maxSize then do
      let bytes := buf.take maxSize
      let t ← decodeText enc bytes
      .ok ⟨.text (some t), some bytes⟩
    else .ok ⟨.text none, none⟩
  else .error .panic

structure RecordHeader where
  size : Varint
  datatypes : List Varint
deriving DecidableEq, Repr

/-- The serial-type loop of `RecordHeader::try_from`: read successive
varints from the buffer (each consumes at least one byte, so fuel equal
to the buffer length makes the recursion exact). -/
def parseDatatypes : Nat → List Nat → List Varint
  | 0, _ => []
  | _, [] => []
  | fuel + 1, b :: rest =>
    let v := Varint.new (b :: rest)
    v :: parseDatatypes fuel ((b :: rest).drop v.bytes.length)

/-- `RecordHeader::try_from` (src/parser/src/record.rs:54): reads the
header-size varint, then slices `buf[L .. H - L + 1]` (`datatype_size =
size.value as usize - size.bytes.len() + 1`) and reads serial-type
varints from it.  The `usize` arithmetic wraps in release mode; a
wrapped (negative) bound always exceeds the buffer, so the slice panics
either way, which the guard models. -/
def RecordHeader.tryFrom (buf : List Nat) : Res RecordHeader := do
  let size := Varint.new buf
  let h := u64OfI64 size.value
  let lenB := size.bytes.length
  if h + 1 < lenB then .error .panic
  else do
    let dtBuf ← sliceAB buf lenB (h + 1 - lenB)
    .ok ⟨size, parseDatatypes dtBuf.length dtBuf⟩

structure Record where
  header : RecordHeader
  values : List RecordValue
deriving DecidableEq, Repr

/-- The value loop of `Record::try_from` (src/parser/src/record.rs:27):
`bytes = &buf[offset..]`; when it is empty and the serial type has
non-zero size the loop breaks, otherwise the value is parsed and the
offset advanced by the captured byte count. -/
def recordValuesLoop (enc : TextEncoding) (buf : List Nat) :
    List Varint → Nat → Res (List RecordValue)
  | [], _ => .ok []
  | dt :: rest, offset => do
    let bytes ← sliceFrom buf offset
    let brk ←
      if bytes.isEmpty then do
        let sz ← RecordCode.size dt.value
        pure (sz != 0)
      else pure false
    if brk then .ok []
    else do
      let v ← RecordValue.new dt.value enc bytes
      let vs ← recordValuesLoop enc buf rest (offset + (v.bytes.map List.length).getD 0)
      .ok (v :: vs)

/-- `Record::try_from` (src/parser/src/record.rs:15). -/
def Record.tryFrom (enc : TextEncoding) (buf : List Nat) : Res Record := do
  let header ← RecordHeader.tryFrom buf
  let values ← recordValuesLoop enc buf header.datatypes (u64OfI64 header.size.value)
  .ok ⟨header, values⟩

/-! ## Database header model -/

/-- 64-bit wrapping subtraction (`u64`/`usize` subtraction in release
mode), for `a, b < 2 ^ 64`. -/
def sub64 (a b : Nat) : Nat := (a + 2 ^ 64 - b) % 2 ^ 64

/-- The parsed database header (`DBHeader` of the `parser` crate),
restricted to the fields the embedded decoder reads.  `pageSize` is the
already-decoded page size in bytes (a `u64` in the crate). -/
structure DBHeader where
  pageSize : Nat
  reservedPageSpace : Nat
  fileChangeCounter : Nat
  dbSize : Nat
  textEncoding : TextEncoding
  versionValidForNumber : Nat
deriving DecidableEq, Repr

/-! ## Cell decoder (src/parser/src/cell.rs) -/

structure OverflowUnit where
  bytesLeft : Nat
  overflowType : Int
deriving DecidableEq, Repr

structure CellOverflow where
  page : Nat
  units : List OverflowUnit
deriving DecidableEq, Repr

structure TableLeafCell where
  payloadVarint : Varint
  rowidVarint : Varint
  payload : Record
  overflow : Option CellOverflow
deriving DecidableEq, Repr

structure TableInteriorCell where
  leftPageNumber : Nat
  rowidVarint : Varint
deriving DecidableEq, Repr

structure IndexLeafCell where
  payloadVarint : Varint
  payload : Record
  overflow : Option CellOverflow
deriving DecidableEq, Repr

structure IndexInteriorCell where
  leftPageNumber : Nat
  payloadVarint : Varint
  payload : Record
  overflow : Option CellOverflow
deriving DecidableEq, Repr

inductive Cell where
  | tableLeaf (c : TableLeafCell)
  | tableInterior (c : TableInteriorCell)
  | indexLeaf (c : IndexLeafCell)
  | indexInterior (c : IndexInteriorCell)
deriving DecidableEq, Repr

/-- `|u| u - 35`, the max-payload closure for leaf table pages
(src/parser/src/cell.rs:68). -/
def maxPayloadLeafTable (u : Nat) : Nat := sub64 u 35

/-- `|u| ((u - 12) * 64 / 255) - 23`, the max-payload closure for index
pages (src/parser/src/cell.rs:87,104); the multiplication is `u64`. -/
def maxPayloadIndex (u : Nat) : Nat := sub64 (sub64 u 12 * 64 % 2 ^ 64 / 255) 23

/-- The overflow-spill arithmetic of `Cell::parse_payload`
(src/parser/src/cell.rs:155-176), returning `(payload_size,
overflow_size)`.  A zero `u - 4` makes the Rust `%` panic. -/
def spillSplit (maxPayload : Nat → Nat) (u p : Nat) : Res (Nat × Nat) :=
  let x := maxPayload u
  if p ≤ x then .ok (p, 0)
  else
    let m := sub64 (sub64 u 12 * 32 % 2 ^ 64 / 255) 23
    if sub64 u 4 = 0 then .error .panic
    else
      let k := (m + sub64 p m % sub64 u 4) % 2 ^ 64
      if k ≤ x then .ok (k, sub64 p k) else .ok (m, sub64 p m)

/-- The overflow-unit synthesis loop of `Cell::parse_payload`
(src/parser/src/cell.rs:189-209): one unit per column whose captured
bytes fall short of its declared size, whole declared size for columns
absent from the page. -/
def overflowUnitsGo (payload : Record) : List Varint → Nat → Res (List OverflowUnit)
  | [], _ => .ok []
  | dt :: rest, n => do
    let code := dt.value
    let specifiedSize ← RecordCode.size code
    if h : n < payload.values.length then
      let column := payload.values.get ⟨n, h⟩
      let columnSize := (column.bytes.map List.length).getD 0
      if columnSize = specifiedSize then overflowUnitsGo payload rest (n + 1)
      else do
        let units ← overflowUnitsGo payload rest (n + 1)
        .ok (⟨specifiedSize - columnSize, code⟩ :: units)
    else do
      let units ← overflowUnitsGo payload rest (n + 1)
      .ok (⟨specifiedSize, code⟩ :: units)

/-- `Cell::parse_payload` (src/parser/src/cell.rs:118): spill split, the
4-byte first-overflow-page read right after the on-page payload, the
on-page record parse, and the overflow descriptor (`None` exactly when
the overflow size is zero). -/
def parsePayload (dbh : DBHeader) (maxPayload : Nat → Nat) (pv : Varint)
    (buf : List Nat) (offset : Nat) : Res (Record × Option CellOverflow) := do
  let u := sub64 dbh.pageSize dbh.reservedPageSpace
  let p := u64OfI64 pv.value
  let split ← spillSplit maxPayload u p
  let payloadSize := split.1
  let overflowSize := split.2
  let overflowPage ←
    if overflowSize = 0 then pure 0 else slcBE buf (offset + payloadSize) 4
  let rbuf ← sliceAB buf offset (offset + payloadSize)
  let payload ← Record.tryFrom dbh.textEncoding rbuf
  if overflowSize = 0 then .ok (payload, none)
  else do
    let units ← overflowUnitsGo payload payload.header.datatypes 0
    .ok (payload, some ⟨overflowPage, units⟩)

inductive PageHeaderType where
  | interiorIndex
  | interiorTable
  | leafIndex
  | leafTable
deriving DecidableEq, Repr

/-- `PageHeaderType::is_interior`. -/
def PageHeaderType.isInterior : PageHeaderType → Bool
  | .interiorIndex => true
  | .interiorTable => true
  | _ => false

/-- `Cell::new` (src/parser/src/cell.rs:54): dispatch on the page type
over the four cell variants. -/
def Cell.new (pageType : PageHeaderType) (dbh : DBHeader) (buf : List Nat) :
    Res Cell :=
  match pageType with
  | .leafTable => do
    let pv := Varint.new buf
    let offset := pv.bytes.length
    let rbuf ← sliceFrom buf offset
    let rv := Varint.new rbuf
    let r ← parsePayload dbh maxPayloadLeafTable pv buf (offset + rv.bytes.length)
    .ok (.tableLeaf ⟨pv, rv, r.1, r.2⟩)
  | .interiorTable => do
    let left ← slcBE buf 0 4
    let rbuf ← sliceFrom buf 4
    .ok (.tableInterior ⟨left, Varint.new rbuf⟩)
  | .leafIndex => do
    let pv := Varint.new buf
    let offset := pv.bytes.length
    let r ← parsePayload dbh maxPayloadIndex pv buf offset
    .ok (.indexLeaf ⟨pv, r.1, r.2⟩)
  | .interiorIndex => do
    let left ← slcBE buf 0 4
    let rbuf ← sliceFrom buf 4
    let pv := Varint.new rbuf
    let r ← parsePayload dbh maxPayloadIndex pv buf (4 + pv.bytes.length)
    .ok (.indexInterior ⟨left, pv, r.1, r.2⟩)

/-! ## Page decoder (src/parser/src/page.rs) -/

/-- `PageHeaderType::try_from` (src/parser/src/page.rs:26): only bytes
2, 5, 10 and 13 are page types; anything else is an `Err`. -/
def PageHeaderType.tryFrom (b : Nat) : Res PageHeaderType :=
  if b = 2 then .ok .interiorIndex
  else if b = 5 then .ok .interiorTable
  else if b = 10 then .ok .leafIndex
  else if b = 13 then .ok .leafTable
  else .error .err

structure PageHeader where
  pageType : PageHeaderType
  freeBlockOffset : Option Nat
  cellNum : Nat
  cellStartOffset : Nat
  fragmentedFreeBytes : Nat
  pageNum : Option Nat
  size : Nat
deriving DecidableEq, Repr

/-- `PageHeader::new` (src/parser/src/page.rs:87): leaves store an
8-byte header, interior pages 12 bytes. -/
def PageHeader.new (pt : PageHeaderType) (fb : Option Nat) (cn cs fr : Nat)
    (pn : Option Nat) : PageHeader :=
  ⟨pt, fb, cn, cs, fr, pn, if pt.isInterior then 12 else 8⟩

/-- `PageHeader::try_from` (src/parser/src/page.rs:113): the right-most
pointer bytes are read eagerly (`then_some`'s argument) and kept only
for interior pages; a zero first-freeblock means `None`; a zero
cell-content start means 65536. -/
def PageHeader.tryFrom (buf : List Nat) : Res PageHeader := do
  let tb ← slcBE buf 0 1
  let pt ← PageHeaderType.tryFrom tb
  let fb ← slcBE buf 1 2
  let cn ← slcBE buf 3 2
  let cs ← slcBE buf 5 2
  let fr ← slcBE buf 7 1
  let rp ← slcBE buf 8 4
  .ok (PageHeader.new pt (if fb = 0 then none else some fb) cn
    (if cs = 0 then 65536 else cs) fr (if pt.isInterior then some rp else none))

structure CellPointer where
  array : List Nat
deriving DecidableEq, Repr

/-- The loop of `CellPointer::try_from` (src/parser/src/page.rs:153):
one 16-bit big-endian offset per pointer, a zero offset read as
65536. -/
def cellPtrGo (buf : List Nat) : Nat → Nat → Res (List Nat)
  | 0, _ => .ok []
  | cnt + 1, n => do
    let raw ← slcBE buf (n * 2) 2
    let rest ← cellPtrGo buf cnt (n + 1)
    .ok ((if raw = 0 then 65536 else raw) :: rest)

/-- `CellPointer::try_from` (src/parser/src/page.rs:150). -/
def CellPointer.tryFrom (buf : List Nat) : Res CellPointer :=
  (cellPtrGo buf (buf.length / 2) 0).map CellPointer.mk

structure Page where
  id : Nat
  dbHeader : DBHeader
  pageHeader : PageHeader
  cellPointer : CellPointer
  unallocated : List Nat
  cells : List Cell
deriving DecidableEq, Repr

/-- Modelled from the spec: `TableLeafCell::try_from((text_encoding,
page_size, reserved_page_space, buf))` is called by `Page::try_from`
(src/parser/src/page.rs:232) but its definition is not among the
sources.  Spec §4.3 specifies the TableLeaf decode — cell header
varints (payload length, rowid), spill formula with `x = u - 35`,
on-page record prefix, overflow descriptor — which is the `LeafTable`
arm of `Cell::new`. -/
def tableLeafCellTryFrom (enc : TextEncoding) (pageSize reserved : Nat)
    (buf : List Nat) : Res TableLeafCell := do
  let dbh : DBHeader := ⟨pageSize, reserved, 0, 0, enc, 0⟩
  let pv := Varint.new buf
  let offset := pv.bytes.length
  let rbuf ← sliceFrom buf offset
  let rv := Varint.new rbuf
  let r ← parsePayload dbh maxPayloadLeafTable pv buf (offset + rv.bytes.length)
  .ok ⟨pv, rv, r.1, r.2⟩

/-- Modelled from the spec: `TableInteriorCell::try_from(buf)` is called
by `Page::try_from` (src/parser/src/page.rs:235) but its definition is
not among the sources.  Spec §4.3: read the 4-byte left child page
number, then the rowid varint; no payload, no overflow — the
`InteriorTable` arm of `Cell::new`. -/
def tableInteriorCellTryFrom (buf : List Nat) : Res TableInteriorCell := do
  let left ← slcBE buf 0 4
  let rbuf ← sliceFrom buf 4
  .ok ⟨left, Varint.new rbuf⟩

/-- The cell loop of `Page::try_from` (src/parser/src/page.rs:222-240):
table cells are parsed; index cells hit
`unreachable!("Cell isn't yet implemented for this type.")`. -/
def pageCellsGo (dbh : DBHeader) (pt : PageHeaderType) (buf : List Nat) :
    List Nat → Res (List Cell)
  | [] => .ok []
  | ptr :: rest => do
    let cbuf ← sliceFrom buf ptr
    let cell ←
      match pt with
      | .leafTable =>
        (tableLeafCellTryFrom dbh.textEncoding dbh.pageSize
          dbh.reservedPageSpace cbuf).map .tableLeaf
      | .interiorTable => (tableInteriorCellTryFrom cbuf).map .tableInterior
      | _ => .error .panic
    let cells ← pageCellsGo dbh pt buf rest
    .ok (cell :: cells)

/-- `Page::try_from` (src/parser/src/page.rs:195): page-1 offset of 100
bytes, page header, cell-pointer array, unallocated region up to the
cell-content start, then the cell loop.  The `usize` subtraction
`cell_start_offset - offset` wraps on underflow and the following slice
then panics, which the guard models. -/
def Page.tryFrom (dbh : DBHeader) (pageNum : Nat) (buf : List Nat) :
    Res Page := do
  let offset0 := if pageNum = 1 then 100 else 0
  let phBuf ← sliceAB buf offset0 (offset0 + 12)
  let ph ← PageHeader.tryFrom phBuf
  let offset1 := offset0 + ph.size
  let ptrsSize := ph.cellNum * 2
  let cpBuf ← sliceAB buf offset1 (offset1 + ptrsSize)
  let cp ← CellPointer.tryFrom cpBuf
  let offset2 := offset1 + ptrsSize
  if ph.cellStartOffset < offset2 then .error .panic
  else do
    let unalloc ← sliceAB buf offset2 ph.cellStartOffset
    let cells ← pageCellsGo dbh ph.pageType buf cp.array
    .ok ⟨pageNum, dbh, ph, cp, unalloc, cells⟩

/-! ## Overflow page decoder (src/parser/src/overflow.rs) -/

structure OverflowData where
  bytes : List Nat
  value : RecordValue
deriving DecidableEq, Repr

structure OverflowPage where
  overflowUnits : List OverflowUnit
  nextPage : Nat
  data : List OverflowData
  unallocated : Option (List Nat)
deriving DecidableEq, Repr

/-- The unit-peeling loop of `OverflowPage::try_from`
(src/parser/src/overflow.rs:62-76): take `min(bytes_left, usable)`
bytes, decode them per the unit's serial type, reinsert a partially
satisfied unit.  Returns `(data, leftover units, final usable, final
offset)`. -/
def overflowLoop (enc : TextEncoding) (buf : List Nat) :
    Nat → List OverflowUnit → Nat → Nat →
    Res (List OverflowData × List OverflowUnit × Nat × Nat)
  | 0, _, _, _ => .error .nofuel
  | _ + 1, [], usable, offset => .ok ([], [], usable, offset)
  | fuel + 1, unit :: rest, usable, offset =>
    if usable = 0 then .ok ([], unit :: rest, usable, offset)
    else do
      let contentSize := min unit.bytesLeft usable
      let bytes ← sliceAB buf offset (offset + contentSize)
      let value ← RecordValue.new unit.overflowType enc bytes
      if 0 < unit.bytesLeft - contentSize then do
        let r ← overflowLoop enc buf fuel
          (⟨unit.bytesLeft - contentSize, unit.overflowType⟩ :: rest)
          (usable - contentSize) (offset + contentSize)
        .ok (⟨bytes, value⟩ :: r.1, r.2)
      else do
        let r ← overflowLoop enc buf fuel rest (usable - contentSize)
          (offset + contentSize)
        .ok (⟨bytes, value⟩ :: r.1, r.2)

/-- `OverflowPage::try_from` (src/parser/src/overflow.rs:48): 4-byte
next-page pointer, unit peeling over the usable bytes, trailing bytes
as the unallocated region.  Each loop iteration either consumes usable
bytes or drops a unit, so `usable + units + 1` fuel never runs out. -/
def OverflowPage.tryFrom (enc : TextEncoding) (units : List OverflowUnit)
    (buf : List Nat) : Res OverflowPage := do
  let np ← slcBE buf 0 4
  let r ← overflowLoop enc buf (buf.length + units.length + 1) units
    (buf.length - 4) 4
  let unalloc ←
    if r.2.2.1 = 0 then pure none else (sliceFrom buf r.2.2.2).map some
  .ok ⟨r.2.1, np, r.1, unalloc⟩

/-! ## Freelist decoders (src/parser/src/freelist.rs) -/

structure TrunkFreelistPage where
  nextPage : Nat
  leafPageAmount : Nat
  leafPageNumbers : Option (List Nat)
  unallocated : Option (List Nat)
deriving DecidableEq, Repr

structure LeafFreelistPage where
  unallocated : List Nat
deriving DecidableEq, Repr

/-- The leaf-page-number loop of `TrunkFreelistPage::try_from`. -/
def readU32s (buf : List Nat) : Nat → Nat → Res (List Nat)
  | 0, _ => .ok []
  | k + 1, off => do
    let v ← slcBE buf off 4
    let rest ← readU32s buf k (off + 4)
    .ok (v :: rest)

/-- `TrunkFreelistPage::try_from` (src/parser/src/freelist.rs:34). -/
def TrunkFreelistPage.tryFrom (buf : List Nat) : Res TrunkFreelistPage := do
  let np ← slcBE buf 0 4
  let amount ← slcBE buf 4 4
  let nums ← if 0 < amount then (readU32s buf amount 8).map some else pure none
  let offset := 8 + amount * 4
  let unalloc ←
    if offset < buf.length - 1 then (sliceFrom buf offset).map some
    else pure none
  .ok ⟨np, amount, nums, unalloc⟩

/-- `LeafFreelistPage::try_from` (src/parser/src/freelist.rs:72): the
whole page is the unallocated region; never fails. -/
def LeafFreelistPage.tryFrom (buf : List Nat) : Res LeafFreelistPage :=
  .ok ⟨buf⟩

/-! ## Reader (src/parser/src/reader.rs) -/

/-- Modelled from the spec: the `parser` crate's `header.rs` — declaring
`DBHeader` with the decoded `page_size: u64` field and its
`TryFrom<&[u8; 100]>` — is not among the sources; only its callers and
an older prototype (src/src/parser/header.rs, which stores the raw
`u16`) are.  Spec §3: the page size is the 16-bit big-endian field at
offset 16, "the sentinel value 1 denotes 65536"; reserved space at 20,
change counter at 24, size in pages at 28, text encoding at 56 (1, 2 or
3, anything else an error), version-valid-for counter at 92.  Only the
fields the embedded decoder reads are parsed. -/
def DBHeader.tryFrom (buf : List Nat) : Res DBHeader := do
  let raw ← slcBE buf 16 2
  let reserved ← slcBE buf 20 1
  let fcc ← slcBE buf 24 4
  let dbSize ← slcBE buf 28 4
  let encRaw ← slcBE buf 56 4
  let enc ←
    if encRaw = 1 then .ok TextEncoding.utf8
    else if encRaw = 2 then .ok TextEncoding.utf16le
    else if encRaw = 3 then .ok TextEncoding.utf16be
    else .error .err
  let vvfn ← slcBE buf 92 4
  .ok ⟨if raw = 1 then 65536 else raw, reserved, fcc, dbSize, enc, vvfn⟩

structure Reader where
  bytes : List Nat
  dbHeader : DBHeader
deriving DecidableEq, Repr

/-- `Reader::new` (src/parser/src/reader.rs:13). -/
def Reader.new (bytes : List Nat) : Res Reader := do
  if bytes.length < 100 then .error .err
  else do
    let dbh ← DBHeader.tryFrom (bytes.take 100)
    .ok ⟨bytes, dbh⟩

/-- `Reader::pages_total` (src/parser/src/reader.rs:80): the declared
size when non-zero and the change counter matches the version-valid-for
counter, otherwise `image_length / page_size` — a `usize` division that
panics when `page_size` is 0 (reachable, since the header decoder does
not validate the field). -/
def Reader.pagesTotal (r : Reader) : Res Nat :=
  if r.dbHeader.dbSize ≠ 0 ∧
      r.dbHeader.fileChangeCounter = r.dbHeader.versionValidForNumber then
    .ok r.dbHeader.dbSize
  else if r.dbHeader.pageSize = 0 then .error .panic
  else .ok (r.bytes.length / r.dbHeader.pageSize)

/-- `Reader::page_offset` (src/parser/src/reader.rs:145); reached only
for `page_num ≥ 1`. -/
def Reader.pageOffset (r : Reader) (pageNum : Nat) : Nat :=
  (pageNum - 1) * r.dbHeader.pageSize

/-- `Reader::validate_page_bounds` (src/parser/src/reader.rs:131):
`pages_total()` is computed first, so its division-by-zero panic
precedes the range checks. -/
def Reader.validatePageBounds (r : Reader) (pageNum : Nat) : Res Unit := do
  let pagesTotal ← r.pagesTotal
  if pagesTotal < pageNum ∨ pageNum = 0 then .error .err
  else if r.bytes.length < r.pageOffset pageNum + r.dbHeader.pageSize then
    .error .err
  else .ok ()

/-- `Reader::page_slice` (src/parser/src/reader.rs:122). -/
def Reader.pageSlice (r : Reader) (pageNum : Nat) : Res (List Nat) := do
  let _ ← r.validatePageBounds pageNum
  sliceAB r.bytes (r.pageOffset pageNum)
    (r.pageOffset pageNum + r.dbHeader.pageSize)

/-- `Reader::get_btree_page` (src/parser/src/reader.rs:31). -/
def Reader.getBtreePage (r : Reader) (pageNum : Nat) : Res Page := do
  let buf ← r.pageSlice pageNum
  Page.tryFrom r.dbHeader pageNum buf

/-- `Reader::get_overflow_page` (src/parser/src/reader.rs:38). -/
def Reader.getOverflowPage (r : Reader) (units : List OverflowUnit)
    (pageNum : Nat) : Res OverflowPage := do
  let buf ← r.pageSlice pageNum
  OverflowPage.tryFrom r.dbHeader.textEncoding units buf

/-- `Reader::get_trunk_freelist_page` (src/parser/src/reader.rs:50). -/
def Reader.getTrunkFreelistPage (r : Reader) (pageNum : Nat) :
    Res TrunkFreelistPage := do
  let buf ← r.pageSlice pageNum
  TrunkFreelistPage.tryFrom buf

/-- `Reader::get_leaf_freelist_page` (src/parser/src/reader.rs:57). -/
def Reader.getLeafFreelistPage (r : Reader) (pageNum : Nat) :
    Res LeafFreelistPage := do
  let buf ← r.pageSlice pageNum
  LeafFreelistPage.tryFrom buf

/-! ## B-tree materializer (src/parser/src/btree.rs) -/

structure OverflowNode where
  page : OverflowPage
  pageNum : Nat
deriving DecidableEq, Repr

inductive BTreeNode where
  | mk (page : Page) (pageNum : Nat) (children : Option (List BTreeNode))
      (overflow : Option (List OverflowNode))

def BTreeNode.pageOf : BTreeNode → Page
  | .mk p _ _ _ => p

def BTreeNode.pageNumOf : BTreeNode → Nat
  | .mk _ n _ _ => n

def BTreeNode.childrenOf : BTreeNode → Option (List BTreeNode)
  | .mk _ _ c _ => c

def BTreeNode.overflowOf : BTreeNode → Option (List OverflowNode)
  | .mk _ _ _ o => o

/-- `BTreeNode::follow_overflow` (src/parser/src/btree.rs:83): fetch the
overflow page, push it, recurse while the next-page pointer is not
zero.  The recursion is not structurally bounded in the source; fuel
models it, `.nofuel` standing for non-termination. -/
def followOverflow (r : Reader) :
    Nat → List OverflowPage → List OverflowUnit → Nat →
    Res (List OverflowPage)
  | 0, _, _, _ => .error .nofuel
  | fuel + 1, opages, units, nextPage => do
    let opage ← r.getOverflowPage units nextPage
    let units2 := opage.overflowUnits
    let np := opage.nextPage
    let opages2 := opages ++ [opage]
    if np = 0 then .ok opages2
    else followOverflow r fuel opages2 units2 np

/-- The `extend_overflow` closure of `BTreeNode::new`
(src/parser/src/btree.rs:24-47): walk the cell's overflow chain and
append the resulting `(page, page number)` pairs.  The `if let Ok(res)`
silently discards only an `Err` value of the walk; a panic inside the
walk propagates, as does the artificial `.nofuel` (which stands for a
walk that does not terminate). -/
def extendOverflow (r : Reader) (fuel : Nat) (co : Option CellOverflow)
    (acc : List OverflowNode) : Res (List OverflowNode) :=
  match co with
  | none => .ok acc
  | some o =>
    match followOverflow r fuel [] o.units o.page with
    | .ok res =>
      let pageNums := (o.page :: res.map (fun p => p.nextPage)).dropLast
      .ok (acc ++ (res.zip pageNums).map (fun pr => ⟨pr.1, pr.2⟩))
    | .error .err => .ok acc
    | .error .panic => .error .panic
    | .error .nofuel => .error .nofuel

/-- The cell loop of `BTreeNode::new` (src/parser/src/btree.rs:49-65),
parameterized by the recursive node builder (`childNew`, applied to each
interior cell's left child) and by the overflow harvester (`extOv`). -/
def btreeCellsGo (childNew : Nat → Res BTreeNode)
    (extOv : Option CellOverflow → List OverflowNode →
      Res (List OverflowNode)) :
    List Cell → List BTreeNode → List OverflowNode →
    Res (List BTreeNode × List OverflowNode)
  | [], ch, ov => .ok (ch, ov)
  | c :: rest, ch, ov =>
    match c with
    | .tableInterior cell => do
      let child ← childNew cell.leftPageNumber
      btreeCellsGo childNew extOv rest (ch ++ [child]) ov
    | .tableLeaf cell => do
      let ov2 ← extOv cell.overflow ov
      btreeCellsGo childNew extOv rest ch ov2
    | .indexInterior cell => do
      let child ← childNew cell.leftPageNumber
      let ov2 ← extOv cell.overflow ov
      btreeCellsGo childNew extOv rest (ch ++ [child]) ov2
    | .indexLeaf cell => do
      let ov2 ← extOv cell.overflow ov
      btreeCellsGo childNew extOv rest ch ov2

/-- `BTreeNode::new` (src/parser/src/btree.rs:19): parse the page, for
each cell recurse into interior left children and harvest overflow
chains, then recurse into the right-most pointer of interior pages
(`unwrap` of a `None` right-most pointer is a panic). -/
def BTreeNode.new (r : Reader) : Nat → Nat → Res BTreeNode
  | 0, _ => .error .nofuel
  | fuel + 1, pageNum => do
    let page ← r.getBtreePage pageNum
    let co ← btreeCellsGo (fun pn => BTreeNode.new r fuel pn)
      (extendOverflow r fuel) page.cells [] []
    let children ←
      if page.pageHeader.pageType.isInterior then
        match page.pageHeader.pageNum with
        | some rp => do
          let child ← BTreeNode.new r fuel rp
          pure (co.1 ++ [child])
        | none => .error .panic
      else pure co.1
    .ok (.mk page pageNum (if children.isEmpty then none else some children)
      (if co.2.isEmpty then none else some co.2))

structure BTree where
  ttype : List Nat
  name : List Nat
  root : BTreeNode

/-- Modelled from the spec: `RecordValue::merge` is called by
`BTree::follow_overflow` (src/parser/src/btree.rs:154) but its
definition is not among the sources.  Spec §4.9: the last on-page value
and the first overflow value of matching serial type are merged — their
byte runs concatenated and the typed value re-derived; a mismatch is
not mergeable (`None`). -/
def RecordValue.merge (a b : RecordValue) : Option RecordValue :=
  match a.value, b.value with
  | .blob x, .blob y =>
    let bytes := x.getD [] ++ y.getD []
    some ⟨.blob (some bytes), some bytes⟩
  | .text x, .text y =>
    let bytes := x.getD [] ++ y.getD []
    some ⟨.text (some bytes), some bytes⟩
  | _, _ => none

/-- `BTree::follow_overflow` (src/parser/src/btree.rs:132): merge the
last on-page value with the first overflow value, append the rest,
recurse while the next-page pointer is not zero.  `remove` on an empty
vector panics; an unmergeable pair hits `unreachable!`. -/
def btreeFollowOverflowRV (r : Reader) :
    Nat → List RecordValue → List OverflowUnit → Nat →
    Res (List RecordValue)
  | 0, _, _, _ => .error .nofuel
  | fuel + 1, payload, units, nextPage => do
    let opage ← r.getOverflowPage units nextPage
    match payload.getLast?, opage.data with
    | some lastP, first :: restData => do
      let merged ←
        match lastP.merge first.value with
        | some v => pure v
        | none => .error .panic
      let payload2 := payload.dropLast ++ [merged] ++
        restData.map (fun d => d.value)
      if opage.nextPage = 0 then .ok payload2
      else
        btreeFollowOverflowRV r fuel payload2 opage.overflowUnits opage.nextPage
    | _, _ => .error .panic

/-- ASCII bytes of the literal `"table"`. -/
def asciiTable : List Nat := [116, 97, 98, 108, 101]

/-- ASCII bytes of the literal `"master schema"`. -/
def asciiMasterSchema : List Nat :=
  [109, 97, 115, 116, 101, 114, 32, 115, 99, 104, 101, 109, 97]

/-- `BTree::parse_tree` (src/parser/src/btree.rs:166): schema columns
`{type = 0, name = 1, root_page = 3}`; out-of-range indexing panics and
a non-text name/type or non-integer root page hits `unreachable!`.  The
`as usize` cast of the integer value is the 64-bit wrap. -/
def BTree.parseTree (r : Reader) (fuel : Nat) (values : List RecordValue) :
    Res BTree := do
  let tname ←
    match values.get? 1 with
    | some v =>
      match v.value with
      | .text t => pure (t.getD [])
      | _ => .error .panic
    | none => .error .panic
  let ttype ←
    match values.get? 0 with
    | some v =>
      match v.value with
      | .text t => pure (t.getD [])
      | _ => .error .panic
    | none => .error .panic
  let tpage ←
    match values.get? 3 with
    | some v =>
      match v.value with
      | .i8 n => pure (u64OfI64 n)
      | .i16 n => pure (u64OfI64 n)
      | .i24 n => pure (u64OfI64 n)
      | .i32 n => pure (u64OfI64 n)
      | .i48 n => pure (u64OfI64 n)
      | .i64 n => pure (u64OfI64 n)
      | _ => .error .panic
    | none => .error .panic
  let root ← BTreeNode.new r fuel tpage
  .ok ⟨ttype, tname, root⟩

/-- `BTree::new` (src/parser/src/btree.rs:117). -/
def BTree.new (r : Reader) (fuel : Nat) (cell : TableLeafCell) : Res BTree :=
  match cell.overflow with
  | some o => do
    let payload ← btreeFollowOverflowRV r fuel cell.payload.values o.units
      o.page
    BTree.parseTree r fuel payload
  | none => BTree.parseTree r fuel cell.payload.values

/-- The cell loop of `Reader::collect_cells`
(src/parser/src/reader.rs:102-113), parameterized by the recursive
traversal (`recur`, applied to each table-interior cell's left
child). -/
def collectCellsList
    (recur : Nat → List TableLeafCell → List TableLeafCell × Option Fail) :
    List Cell → List TableLeafCell → List TableLeafCell × Option Fail
  | [], acc => (acc, none)
  | c :: rest, acc =>
    match c with
    | .tableInterior cell =>
      match recur cell.leftPageNumber acc with
      | (acc2, some e) => (acc2, some e)
      | (acc2, none) => collectCellsList recur rest acc2
    | .tableLeaf cell => collectCellsList recur rest (acc ++ [cell])
    | _ => collectCellsList recur rest acc

/-- `Reader::collect_cells` (src/parser/src/reader.rs:96): depth-first
collection of the schema table's leaf cells.  The `&mut Vec` keeps the
cells pushed before a failure, so the embedding returns the accumulated
cells together with the error, if any. -/
def collectCells (r : Reader) : Nat → Nat → List TableLeafCell →
    List TableLeafCell × Option Fail
  | 0, _, acc => (acc, some .nofuel)
  | fuel + 1, pageNum, acc =>
    match r.getBtreePage pageNum with
    | .error e => (acc, some e)
    | .ok page =>
      match collectCellsList (fun pn a => collectCells r fuel pn a)
          page.cells acc with
      | (acc2, some e) => (acc2, some e)
      | (acc2, none) =>
        if page.pageHeader.pageType.isInterior then
          match page.pageHeader.pageNum with
          | some rp => collectCells r fuel rp acc2
          | none => (acc2, some .panic)
        else (acc2, none)

/-- The schema-tree loop of `Reader::get_btrees`
(src/parser/src/reader.rs:73-75). -/
def btreesGo (r : Reader) (fuel : Nat) : List TableLeafCell → Res (List BTree)
  | [] => .ok []
  | c :: rest => do
    let t ← BTree.new r fuel c
    let ts ← btreesGo r fuel rest
    .ok (t :: ts)

/-- `Reader::get_btrees` (src/parser/src/reader.rs:64):
`let _ = self.collect_cells(1, &mut cells);` discards the traversal's
`Result` but keeps the partially collected cells; only the artificial
`.nofuel` (standing for non-termination) is propagated.  Then the
synthetic "master schema" tree rooted at page 1, then one tree per
collected schema cell. -/
def Reader.getBtrees (r : Reader) (fuel : Nat) : Res (List BTree) := do
  let cellsPair := collectCells r fuel 1 []
  if cellsPair.2 = some Fail.nofuel then .error .nofuel
  else do
    let master ← BTreeNode.new r fuel 1
    let trees ← btreesGo r fuel cellsPair.1
    .ok (⟨asciiTable, asciiMasterSchema, master⟩ :: trees)

/-- A cell's overflow descriptor. -/
def Cell.overflowOf : Cell → Option CellOverflow
  | .tableLeaf c => c.overflow
  | .tableInterior _ => none
  | .indexLeaf c => c.overflow
  | .indexInterior c => c.overflow

/-! ## Concrete images used by the counterexamples and witnesses -/

/-- A one-page image (page size 16) whose overflow page points at
itself: next-page pointer 1 at page 1. -/
def cycleReader : Reader :=
  ⟨[0, 0, 0, 1] ++ List.replicate 12 0, ⟨16, 0, 0, 1, .utf8, 0⟩⟩

/-- A one-page image (page size 16) whose overflow page terminates:
next-page pointer 0. -/
def endReader : Reader :=
  ⟨[0, 0, 0, 0] ++ List.replicate 12 0, ⟨16, 0, 0, 1, .utf8, 0⟩⟩

/-- A two-page image, page size 256.  Page 1 is the schema leaf-table
page with one schema row `(type "t", name "t", tbl "t", root page 2,
sql NULL-text)`; page 2 is a leaf-table page with one cell whose
payload of 230 bytes spills (7 bytes on page) to the out-of-range
overflow page 99. -/
def spillImageBytes : List Nat :=
  List.replicate 100 0 ++ [13, 0, 0, 0, 1, 0, 116, 0] ++ [0, 116] ++
  List.replicate 6 0 ++
  [10, 1, 6, 15, 15, 15, 1, 13, 116, 116, 116, 2] ++ List.replicate 128 0 ++
  [13, 0, 0, 0, 1, 0, 100, 0] ++ [0, 100] ++ List.replicate 90 0 ++
  [129, 102, 1, 3, 131, 78, 1, 2, 3, 4, 0, 0, 0, 99] ++ List.replicate 142 0

def spillReader : Reader := ⟨spillImageBytes, ⟨256, 0, 0, 2, .utf8, 0⟩⟩

/-- A 100-byte database header whose 16-bit page-size field at offset 16
holds the sentinel 1 and whose text-encoding field at offset 56 is 1. -/
def sentinelHdrBytes : List Nat :=
  List.replicate 16 0 ++ [0, 1] ++ List.replicate 38 0 ++ [0, 0, 0, 1] ++
  List.replicate 40 0

/-- A 64-byte leaf-index page (type byte 10) with one cell at offset 50:
payload length 5, record with one `i8` column. -/
def indexPageBytes : List Nat :=
  [10, 0, 0, 0, 1, 0, 50, 0] ++ [0, 50] ++ List.replicate 40 0 ++
  [5, 2, 1, 170, 0, 0] ++ List.replicate 8 0

/-- The spill formula as worded in the specification (§4.3 / C1), with
`x` supplied per page type: on-page and overflow payload sizes. -/
def spillFormulaSpec (x u p : Nat) : Nat × Nat :=
  if p ≤ x then (p, 0)
  else
    let m := (u - 12) * 32 / 255 - 23
    let k := m + (p - m) % (u - 4)
    let onpage := if k ≤ x then k else m
    (onpage, p - onpage)

/-! ## Theorems -/

/-- The source loop refines the spec's algorithm: for any start index
`n ≤ 8`, accumulator and already-consumed bytes, `varintGo` returns the
spec value and appends exactly the spec's consumed prefix. -/
theorem varintGo_spec (buf : List Nat) : ∀ n acc consumed, n ≤ 8 →
    varintGo buf n acc consumed =
      ⟨toI64 (varintSpecGo buf n acc).1,
        consumed.reverse ++ buf.take (varintSpecGo buf n acc).2⟩ := by
  induction buf with
  | nil => intro n acc consumed _; simp [varintGo, varintSpecGo]
  | cons b rest ih =>
    intro n acc consumed h
    by_cases h8 : n = 8
    · subst h8
      simp [varintGo, varintSpecGo, List.take_succ_cons]
    · by_cases hb : b &&& 0x80 = 0
      · simp [varintGo, varintSpecGo, h8, hb, List.take_succ_cons]
      · simp only [varintGo, varintSpecGo, h8, hb, if_neg, ite_false,
          ne_eq, not_false_eq_true, ite_true]
        rw [ih (n + 1) _ (b :: consumed) (by omega)]
        simp [List.take_succ_cons, List.append_assoc]

/-- The spec's varint consumes at most `9 - k` further bytes when `k`
bytes have been consumed already. -/
theorem varintSpecGo_count_le (buf : List Nat) :
    ∀ k acc, k ≤ 8 → (varintSpecGo buf k acc).2 ≤ 9 - k := by
  induction buf with
  | nil => intro k acc _; simp [varintSpecGo]
  | cons b rest ih =>
    intro k acc h
    by_cases h8 : k = 8
    · subst h8; simp [varintSpecGo]
    · by_cases hb : b &&& 0x80 = 0
      · simp [varintSpecGo, h8, hb]; omega
      · simp only [varintSpecGo, h8, hb, ite_false, ne_eq, not_false_eq_true,
          ite_true]
        have := ih (k + 1) (((acc <<< 7) ||| (b &&& 0x7F)) % 2 ^ 64) (by omega)
        omega

/-- C3: `Varint::new` consumes at most 9 bytes, its `bytes` field is
exactly the consumed prefix of the input, its value is the one built by
the 7-bits-per-byte accumulation with an 8-bit ninth byte, and nine (or
more) `0x88` bytes decode to `1_161_999_626_690_365_576` with 9 bytes
consumed. -/
theorem c3_varint_decoder :
    (∀ buf : List Nat,
      (Varint.new buf).bytes.length ≤ 9 ∧
      (Varint.new buf).bytes = buf.take (varintSpecGo buf 0 0).2 ∧
      (Varint.new buf).value = toI64 (varintSpecGo buf 0 0).1) ∧
    Varint.new (List.replicate 9 0x88) =
      ⟨1161999626690365576, List.replicate 9 0x88⟩ ∧
    Varint.new (List.replicate 10 0x88) =
      ⟨1161999626690365576, List.replicate 9 0x88⟩ := by
  refine ⟨fun buf => ?_, by decide, by decide⟩
  have h := varintGo_spec buf 0 0 [] (by omega)
  have hc := varintSpecGo_count_le buf 0 0 (by omega)
  rw [Varint.new, h]
  refine ⟨?_, by simp, by simp⟩
  simp only [List.reverse_nil, List.nil_append, List.length_take]
  omega

/-- Wrapping subtraction agrees with truncated subtraction when no
underflow occurs. -/
theorem sub64_eq {a b : Nat} (hle : b ≤ a) (hlt : a < 2 ^ 64) :
    sub64 a b = a - b := by
  unfold sub64
  omega

/-- Under real usable-page sizes the spill arithmetic of
`Cell::parse_payload` equals the spec's formula, for any max-payload
closure `maxP` whose value lies between the spill minimum `m` and `u`. -/
theorem spillSplit_eq (maxP : Nat → Nat) (u p : Nat) (hu : 257 ≤ u)
    (hu2 : u ≤ 65536) (hp : p < 2 ^ 64)
    (hm_le : (u - 12) * 32 / 255 - 23 ≤ maxP u) (hxu : maxP u ≤ u) :
    spillSplit maxP u p = .ok (spillFormulaSpec (maxP u) u p) := by
  unfold spillSplit spillFormulaSpec
  by_cases hpx : p ≤ maxP u
  · simp [hpx]
  · have h12 : sub64 u 12 = u - 12 := sub64_eq (by omega) (by omega)
    have hmul : (u - 12) * 32 % 2 ^ 64 = (u - 12) * 32 := by
      apply Nat.mod_eq_of_lt; omega
    have hq23 : 23 ≤ (u - 12) * 32 / 255 := by omega
    have hm : sub64 ((u - 12) * 32 / 255) 23 = (u - 12) * 32 / 255 - 23 :=
      sub64_eq (by omega) (by omega)
    have hu4 : sub64 u 4 = u - 4 := sub64_eq (by omega) (by omega)
    have hmp : (u - 12) * 32 / 255 - 23 ≤ p := by omega
    have hpm : sub64 p ((u - 12) * 32 / 255 - 23) =
        p - ((u - 12) * 32 / 255 - 23) := sub64_eq (by omega) hp
    have hr1 : (p - ((u - 12) * 32 / 255 - 23)) % (u - 4) ≤
        p - ((u - 12) * 32 / 255 - 23) := Nat.mod_le _ _
    have hr2 : (p - ((u - 12) * 32 / 255 - 23)) % (u - 4) < u - 4 :=
      Nat.mod_lt _ (by omega)
    have hk : ((u - 12) * 32 / 255 - 23 +
        (p - ((u - 12) * 32 / 255 - 23)) % (u - 4)) % 2 ^ 64 =
        (u - 12) * 32 / 255 - 23 + (p - ((u - 12) * 32 / 255 - 23)) % (u - 4) := by
      apply Nat.mod_eq_of_lt; omega
    have hkp : (u - 12) * 32 / 255 - 23 +
        (p - ((u - 12) * 32 / 255 - 23)) % (u - 4) ≤ p := by omega
    have hpk : sub64 p ((u - 12) * 32 / 255 - 23 +
        (p - ((u - 12) * 32 / 255 - 23)) % (u - 4)) =
        p - ((u - 12) * 32 / 255 - 23 +
          (p - ((u - 12) * 32 / 255 - 23)) % (u - 4)) := sub64_eq hkp hp
    simp only [hpx, if_neg, ite_false, h12, hmul, hm, hu4, hpm, hk, hpk]
    rw [if_neg (by omega)]
    by_cases hkx : (u - 12) * 32 / 255 - 23 +
        (p - ((u - 12) * 32 / 255 - 23)) % (u - 4) ≤ maxP u
    · simp only [hkx, ite_true, if_pos]
    · simp only [hkx, ite_false, if_neg]

/-- Spec-side: the overflow size of the spill formula is zero exactly
when the payload fits on the page (given the spill minimum is at most
`x`). -/
theorem spillFormulaSpec_snd_eq_zero_iff (x u p : Nat)
    (hm_le : (u - 12) * 32 / 255 - 23 ≤ x) :
    (spillFormulaSpec x u p).2 = 0 ↔ p ≤ x := by
  unfold spillFormulaSpec
  by_cases hpx : p ≤ x
  · simp [hpx]
  · have hxp : x < p := by omega
    simp only [hpx, ite_false, if_neg]
    by_cases hkx : (u - 12) * 32 / 255 - 23 +
        (p - ((u - 12) * 32 / 255 - 23)) % (u - 4) ≤ x
    · simp only [hkx, ite_true, if_pos]
      constructor
      · intro h0; omega
      · intro hc; exact hc.elim
    · simp only [hkx, ite_false, if_neg]
      constructor
      · intro h0; omega
      · intro hc; exact hc.elim

/-- Bind on an `ok` result (definitional, stated for rewriting). -/
theorem resBind_ok {α β : Type} (a : α) (f : α → Res β) :
    (Except.ok a : Res α) >>= f = f a := rfl

/-- Bind on an `error` result (definitional, stated for rewriting). -/
theorem resBind_err {α β : Type} (e : Fail) (f : α → Res β) :
    (Except.error e : Res α) >>= f = Except.error e := rfl

/-- A bind is `ok` exactly when both stages are. -/
theorem resBind_eq_ok {α β : Type} {m : Res α} {k : α → Res β} {out : β} :
    m >>= k = .ok out ↔ ∃ v, m = .ok v ∧ k v = .ok out := by
  cases m with
  | error err => simp [resBind_err]
  | ok v => simp [resBind_ok]

/-- A successful `parse_payload` returns a `None` overflow descriptor
exactly when the spill split's overflow size is zero. -/
theorem parsePayload_none_iff {dbh : DBHeader} {maxP : Nat → Nat}
    {pv : Varint} {buf : List Nat} {offset : Nat} {rec : Record}
    {ov : Option CellOverflow} {s : Nat × Nat}
    (hsp : spillSplit maxP (sub64 dbh.pageSize dbh.reservedPageSpace)
      (u64OfI64 pv.value) = .ok s)
    (h : parsePayload dbh maxP pv buf offset = .ok (rec, ov)) :
    (ov = none ↔ s.2 = 0) := by
  simp only [parsePayload, hsp, resBind_ok] at h
  by_cases h0 : s.2 = 0
  · simp only [h0, ite_true, if_pos, Pure.pure, Except.pure, resBind_ok] at h
    rcases hsl : sliceAB buf offset (offset + s.1) with e | rbuf
    all_goals simp only [hsl, resBind_ok, resBind_err] at h
    · exact absurd h (by simp)
    · rcases hrt : Record.tryFrom dbh.textEncoding rbuf with e | payload
      all_goals simp only [hrt, resBind_ok, resBind_err] at h
      · exact absurd h (by simp)
      · simp only [Except.ok.injEq, Prod.mk.injEq] at h
        simp [← h.2, h0]
  · simp only [h0, ite_false, if_neg] at h
    rcases hpg : slcBE buf (offset + s.1) 4 with e | pg
    all_goals simp only [hpg, resBind_ok, resBind_err] at h
    · exact absurd h (by simp)
    · rcases hsl : sliceAB buf offset (offset + s.1) with e | rbuf
      all_goals simp only [hsl, resBind_ok, resBind_err] at h
      · exact absurd h (by simp)
      · rcases hrt : Record.tryFrom dbh.textEncoding rbuf with e | payload
        all_goals simp only [hrt, resBind_ok, resBind_err] at h
        · exact absurd h (by simp)
        · rcases hou : overflowUnitsGo payload payload.header.datatypes 0 with e | units
          all_goals simp only [hou, resBind_ok, resBind_err] at h
          · exact absurd h (by simp)
          · simp only [Except.ok.injEq, Prod.mk.injEq] at h
            simp [← h.2, h0]

/-- The max-payload closure for leaf tables satisfies the side
conditions of `spillSplit_eq` and equals the spec's `u - 35`. -/
theorem maxPayloadLeafTable_eq {u : Nat} (hu : 257 ≤ u) (hu2 : u ≤ 65536) :
    maxPayloadLeafTable u = u - 35 := by
  unfold maxPayloadLeafTable
  exact sub64_eq (by omega) (by omega)

/-- The max-payload closure for index pages equals the spec's
`(u - 12) * 64 / 255 - 23`. -/
theorem maxPayloadIndex_eq {u : Nat} (hu : 257 ≤ u) (hu2 : u ≤ 65536) :
    maxPayloadIndex u = (u - 12) * 64 / 255 - 23 := by
  unfold maxPayloadIndex
  have h12 : sub64 u 12 = u - 12 := sub64_eq (by omega) (by omega)
  have hmul : (u - 12) * 64 % 2 ^ 64 = (u - 12) * 64 := by
    apply Nat.mod_eq_of_lt; omega
  rw [h12, hmul]
  exact sub64_eq (by omega) (by omega)

/-- The spill minimum is at most either closure's max payload, and both
closures stay below `u`. -/
theorem maxPayload_bounds {u : Nat} (hu : 257 ≤ u) (hu2 : u ≤ 65536) :
    ((u - 12) * 32 / 255 - 23 ≤ maxPayloadLeafTable u ∧
      maxPayloadLeafTable u ≤ u) ∧
    ((u - 12) * 32 / 255 - 23 ≤ maxPayloadIndex u ∧ maxPayloadIndex u ≤ u) := by
  rw [maxPayloadLeafTable_eq hu hu2, maxPayloadIndex_eq hu hu2]
  refine ⟨⟨by omega, by omega⟩, ⟨?_, by omega⟩⟩
  have : (u - 12) * 32 / 255 ≤ (u - 12) * 64 / 255 :=
    Nat.div_le_div_right (by omega)
  omega

/-- C1: for real usable sizes (`257 ≤ u ≤ 65536`, the SQLite range of
`page_size - reserved`) the cell decoder's on-page/overflow split equals
the spec's spill formula — with `x = u - 35` for leaf tables and
`x = ((u-12)*64/255) - 23` for index pages — and a cell's overflow
descriptor is `None` exactly when `p ≤ x`. -/
theorem c1_spill_formula :
    (∀ u p : Nat, 257 ≤ u → u ≤ 65536 → p < 2 ^ 64 →
      spillSplit maxPayloadLeafTable u p =
        .ok (spillFormulaSpec (u - 35) u p) ∧
      spillSplit maxPayloadIndex u p =
        .ok (spillFormulaSpec ((u - 12) * 64 / 255 - 23) u p)) ∧
    (∀ (dbh : DBHeader) (maxP : Nat → Nat) (pv : Varint) (buf : List Nat)
      (offset : Nat) (rec : Record) (ov : Option CellOverflow),
      maxP = maxPayloadLeafTable ∨ maxP = maxPayloadIndex →
      257 ≤ sub64 dbh.pageSize dbh.reservedPageSpace →
      sub64 dbh.pageSize dbh.reservedPageSpace ≤ 65536 →
      parsePayload dbh maxP pv buf offset = .ok (rec, ov) →
      (ov = none ↔
        u64OfI64 pv.value ≤ maxP (sub64 dbh.pageSize dbh.reservedPageSpace))) := by
  have core : ∀ (maxP : Nat → Nat) (u p : Nat), 257 ≤ u → u ≤ 65536 →
      p < 2 ^ 64 → (u - 12) * 32 / 255 - 23 ≤ maxP u → maxP u ≤ u →
      spillSplit maxP u p = .ok (spillFormulaSpec (maxP u) u p) :=
    fun maxP u p h1 h2 h3 h4 h5 => spillSplit_eq maxP u p h1 h2 h3 h4 h5
  constructor
  · intro u p hu hu2 hp
    have hb := maxPayload_bounds hu hu2
    constructor
    · rw [core maxPayloadLeafTable u p hu hu2 hp hb.1.1 hb.1.2,
        maxPayloadLeafTable_eq hu hu2]
    · rw [core maxPayloadIndex u p hu hu2 hp hb.2.1 hb.2.2,
        maxPayloadIndex_eq hu hu2]
  · intro dbh maxP pv buf offset rec ov hmaxP hu hu2 h
    have hp : u64OfI64 pv.value < 2 ^ 64 := by
      unfold u64OfI64
      omega
    have hb := maxPayload_bounds hu hu2
    have hm_le : (sub64 dbh.pageSize dbh.reservedPageSpace - 12) * 32 / 255 - 23 ≤
        maxP (sub64 dbh.pageSize dbh.reservedPageSpace) := by
      rcases hmaxP with rfl | rfl
      · exact hb.1.1
      · exact hb.2.1
    have hxu : maxP (sub64 dbh.pageSize dbh.reservedPageSpace) ≤
        sub64 dbh.pageSize dbh.reservedPageSpace := by
      rcases hmaxP with rfl | rfl
      · exact hb.1.2
      · exact hb.2.2
    have hsp := core maxP (sub64 dbh.pageSize dbh.reservedPageSpace)
      (u64OfI64 pv.value) hu hu2 hp hm_le hxu
    have hzero := spillFormulaSpec_snd_eq_zero_iff
      (maxP (sub64 dbh.pageSize dbh.reservedPageSpace))
      (sub64 dbh.pageSize dbh.reservedPageSpace) (u64OfI64 pv.value) hm_le
    have hnone := parsePayload_none_iff hsp h
    exact hnone.trans hzero

/-- C1 witness: the spill formula at `u = 1024`, `p = 2000` (the spec's
overflow scenario), and the descriptor iff at a concrete cell whose
payload of 2000 bytes spills with 980 bytes on page and first overflow
page 5. -/
theorem c1_spill_formula_witness :
    spillSplit maxPayloadLeafTable 1024 2000 =
      .ok (spillFormulaSpec (1024 - 35) 1024 2000) ∧
    ((some (⟨5, []⟩ : CellOverflow) : Option CellOverflow) = none ↔
      u64OfI64 (2000 : Int) ≤ maxPayloadLeafTable (sub64 1024 0)) :=
  ⟨(c1_spill_formula.1 1024 2000 (by norm_num) (by norm_num) (by norm_num)).1,
    c1_spill_formula.2 ⟨1024, 0, 0, 0, .utf8, 0⟩ maxPayloadLeafTable
      ⟨2000, [143, 80]⟩ ([1] ++ List.replicate 979 0 ++ [0, 0, 0, 5]) 0
      ⟨⟨⟨1, [1]⟩, []⟩, []⟩ (some ⟨5, []⟩) (Or.inl rfl) (by decide) (by decide)
      (by rfl)⟩

/-- C2: evaluation of the record-header decoder at a failing input.  The
header-size varint of the buffer decodes to `H = 130` using `L = 2`
bytes, so per the claim the serial-type varints should occupy bytes
`2..130` (128 one-byte serial types, header = 130 bytes total).  The
decoder instead slices `buf[2 .. H - L + 1] = buf[2..129]` and produces
only 127 serial types, i.e. a header of `H - L + 1 = 129` bytes. -/
theorem c2_record_header_off_by_l :
    (RecordHeader.tryFrom ([0x81, 0x02] ++ List.replicate 140 1)).map
        (fun h => (h.size.value, h.size.bytes.length, h.datatypes.length)) =
      .ok (130, 2, 127) := by
  rfl

/-- C5 counterexample: a record whose single column has serial type 4
(a 4-byte big-endian integer) with only 2 bytes remaining at its start.
The claim says decoding returns normally with a truncated value; the
decoder instead panics (out-of-bounds slice `&buf[..4]` on a 2-byte
slice). -/
theorem c5_counterexample :
    Record.tryFrom .utf8 [2, 4, 170, 187] = .error .panic := by
  rfl

/-- C5 (amended): truncation is handled only for the variable-size
codes.  A blob column (even code ≥ 14) whose declared size exceeds the
non-empty remaining slice captures exactly the remaining
`min(declared, remaining)` bytes and returns normally, and when the
remaining slice is empty a column of non-zero declared size terminates
the value loop with no further values. -/
theorem c5_truncated_blob_and_stop :
    (∀ (code : Int) (enc : TextEncoding) (buf : List Nat),
      14 ≤ code → code % 2 = 0 → 0 < buf.length →
      (buf.length : Int) < (code - 12) / 2 →
      RecordValue.new code enc buf = .ok ⟨.blob (some buf), some buf⟩) ∧
    (∀ (code : Int) (enc : TextEncoding) (buf t : List Nat),
      15 ≤ code → code % 2 ≠ 0 → 0 < buf.length →
      (buf.length : Int) < (code - 13) / 2 →
      decodeText enc buf = .ok t →
      RecordValue.new code enc buf = .ok ⟨.text (some t), some buf⟩) ∧
    (∀ (enc : TextEncoding) (buf : List Nat) (dt : Varint) (rest : List Varint)
      (sz : Nat),
      RecordCode.size dt.value = .ok sz → sz ≠ 0 →
      recordValuesLoop enc buf (dt :: rest) buf.length = .ok []) ∧
    (∀ (enc : TextEncoding) (buf : List Nat) (dt : Varint) (rest : List Varint)
      (v : RecordValue),
      RecordCode.size dt.value = .ok 0 →
      RecordValue.new dt.value enc [] = .ok v →
      recordValuesLoop enc buf (dt :: rest) buf.length =
        (recordValuesLoop enc buf rest
          (buf.length + (v.bytes.map List.length).getD 0)).map
          (fun vs => v :: vs)) := by
  refine ⟨?_, ?_, ?_, ?_⟩
  · intro code enc buf h14 heven hlen hdecl
    have nOr : ¬(code = 0 ∨ code = 8 ∨ code = 9 ∨ code = 12 ∨ code = 13) := by
      omega
    have nZ : code ≠ 0 := by omega
    have n1 : code ≠ 1 := by omega
    have n2 : code ≠ 2 := by omega
    have n3 : code ≠ 3 := by omega
    have n4 : code ≠ 4 := by omega
    have n5 : code ≠ 5 := by omega
    have n6 : code ≠ 6 := by omega
    have n7 : code ≠ 7 := by omega
    have n8 : code ≠ 8 := by omega
    have n9 : code ≠ 9 := by omega
    have nA : code ≠ 10 := by omega
    have nB : code ≠ 11 := by omega
    have pEven : 12 ≤ code ∧ code % 2 = 0 := by omega
    have hsz : RecordCode.size code = .ok ((code - 12) / 2).toNat := by
      unfold RecordCode.size
      rw [if_neg nOr, if_neg n1, if_neg n2, if_neg n3, if_neg n4, if_neg n5,
        if_neg n6, if_neg n7, if_pos pEven]
    have hmin : min ((code - 12) / 2).toNat buf.length = buf.length := by
      have : buf.length ≤ ((code - 12) / 2).toNat := by omega
      omega
    unfold RecordValue.new
    rw [hsz]
    show (do
      if code = 0 then _ else _ : Res RecordValue) = _
    rw [if_neg nZ, if_neg n1, if_neg n2, if_neg n3, if_neg n4, if_neg n5,
      if_neg n6, if_neg n7, if_neg n8, if_neg n9, if_neg nA, if_neg nB,
      if_pos pEven]
    simp only [hmin, if_pos hlen, List.take_length]
  · intro code enc buf t h15 hodd hlen hdecl hdec
    have qOr : ¬(code = 0 ∨ code = 8 ∨ code = 9 ∨ code = 12 ∨ code = 13) := by
      omega
    have qZ : code ≠ 0 := by omega
    have q1 : code ≠ 1 := by omega
    have q2 : code ≠ 2 := by omega
    have q3 : code ≠ 3 := by omega
    have q4 : code ≠ 4 := by omega
    have q5 : code ≠ 5 := by omega
    have q6 : code ≠ 6 := by omega
    have q7 : code ≠ 7 := by omega
    have q8 : code ≠ 8 := by omega
    have q9 : code ≠ 9 := by omega
    have qA : code ≠ 10 := by omega
    have qB : code ≠ 11 := by omega
    have qEv : ¬(12 ≤ code ∧ code % 2 = 0) := by omega
    have pOdd : 13 ≤ code ∧ code % 2 ≠ 0 := by omega
    have hsz : RecordCode.size code = .ok ((code - 13) / 2).toNat := by
      unfold RecordCode.size
      rw [if_neg qOr, if_neg q1, if_neg q2, if_neg q3, if_neg q4, if_neg q5,
        if_neg q6, if_neg q7, if_neg qEv, if_pos pOdd]
    have hmin : min ((code - 13) / 2).toNat buf.length = buf.length := by
      have : buf.length ≤ ((code - 13) / 2).toNat := by omega
      omega
    unfold RecordValue.new
    rw [hsz]
    show (do
      if code = 0 then _ else _ : Res RecordValue) = _
    rw [if_neg qZ, if_neg q1, if_neg q2, if_neg q3, if_neg q4, if_neg q5,
      if_neg q6, if_neg q7, if_neg q8, if_neg q9, if_neg qA, if_neg qB,
      if_neg qEv, if_pos pOdd]
    simp only [hmin, if_pos hlen, List.take_length, hdec, resBind_ok]
  · intro enc buf dt rest sz hsz hne
    unfold recordValuesLoop
    have hslice : sliceFrom buf buf.length = .ok [] := by
      simp [sliceFrom]
    rw [hslice]
    simp [Bind.bind, Except.bind, Pure.pure, Except.pure, hsz, hne]
  · intro enc buf dt rest v hsz hv
    have hslice : sliceFrom buf buf.length = .ok [] := by
      simp [sliceFrom]
    rcases hL : recordValuesLoop enc buf rest
        (buf.length + (v.bytes.map List.length).getD 0) with e | vs
    all_goals
      unfold recordValuesLoop
      rw [hslice]
      simp [Bind.bind, Except.bind, Pure.pure, Except.pure, hsz, hv, hL,
        Except.map]

/-- C8: for the reserved serial-type codes 10 and 11 and for every
negative code, `RecordValue::new` panics via the `unreachable!` arm of
`RecordCode::size` (which is evaluated eagerly, making the explicit
`10 =>`/`11 =>` arms of `RecordValue::new` dead code); no `Err` value is
returned to the caller. -/
theorem c8_invalid_serial_type_panics :
    RecordValue.new 10 .utf8 [] = .error .panic ∧
    RecordValue.new 11 .utf8 [] = .error .panic ∧
    (∀ (code : Int) (enc : TextEncoding) (buf : List Nat), code < 0 →
      RecordValue.new code enc buf = .error .panic) := by
  refine ⟨rfl, rfl, ?_⟩
  intro code enc buf h
  have mOr : ¬(code = 0 ∨ code = 8 ∨ code = 9 ∨ code = 12 ∨ code = 13) := by
    omega
  have m1 : code ≠ 1 := by omega
  have m2 : code ≠ 2 := by omega
  have m3 : code ≠ 3 := by omega
  have m4 : code ≠ 4 := by omega
  have m5 : code ≠ 5 := by omega
  have m6 : code ≠ 6 := by omega
  have m7 : code ≠ 7 := by omega
  have mEv : ¬(12 ≤ code ∧ code % 2 = 0) := by omega
  have mOd : ¬(13 ≤ code ∧ code % 2 ≠ 0) := by omega
  have hs : RecordCode.size code = .error .panic := by
    unfold RecordCode.size
    rw [if_neg mOr, if_neg m1, if_neg m2, if_neg m3, if_neg m4, if_neg m5,
      if_neg m6, if_neg m7, if_neg mEv, if_neg mOd]
  unfold RecordValue.new
  rw [hs]
  rfl

/-- C8 witness: the negative-code case of `c8_invalid_serial_type_panics`
at the concrete code `-7`. -/
theorem c8_invalid_serial_type_panics_witness :
    RecordValue.new (-7) .utf8 [1] = .error .panic :=
  c8_invalid_serial_type_panics.2.2 (-7) .utf8 [1] (by decide)

/-- C5 witness: the amended statement at concrete inputs — a blob of
declared size 2 (code 16) truncated to the single remaining byte, a
text of declared size 3 (code 19) truncated to one valid UTF-8 byte,
the loop stopping at the end of the buffer on a size-1 column, and a
zero-sized text column (code 13) still producing a value there. -/
theorem c5_truncated_blob_and_stop_witness :
    RecordValue.new 16 .utf8 [7] = .ok ⟨.blob (some [7]), some [7]⟩ ∧
    RecordValue.new 19 .utf8 [104] = .ok ⟨.text (some [104]), some [104]⟩ ∧
    recordValuesLoop .utf8 [7] (⟨1, [1]⟩ :: []) 1 = .ok [] ∧
    recordValuesLoop .utf8 [7] (⟨13, [13]⟩ :: []) 1 =
      (recordValuesLoop .utf8 [7] [] 1).map
        (fun vs => (⟨.text none, none⟩ : RecordValue) :: vs) :=
  ⟨c5_truncated_blob_and_stop.1 16 .utf8 [7] (by norm_num) (by norm_num)
      (by simp) (by decide),
    c5_truncated_blob_and_stop.2.1 19 .utf8 [104] [104] (by norm_num)
      (by decide) (by simp) (by decide) (by rfl),
    c5_truncated_blob_and_stop.2.2.1 .utf8 [7] ⟨1, [1]⟩ [] 1 rfl (by simp),
    c5_truncated_blob_and_stop.2.2.2 .utf8 [7] ⟨13, [13]⟩ []
      ⟨.text none, none⟩ rfl rfl⟩

/-- C4 counterexample: a Reader whose single page is within bounds
(`validate_page_bounds` accepts it, and none of the claim's error
conditions hold), yet `get_btree_page` returns an error because the
in-bounds page content fails to parse (page-type byte 0).  This refutes
the claim's "only if" direction. -/
theorem c4_counterexample :
    Reader.getBtreePage ⟨List.replicate 112 0, ⟨112, 0, 0, 1, .utf8, 0⟩⟩ 1 =
      .error .err ∧
    Reader.validatePageBounds ⟨List.replicate 112 0, ⟨112, 0, 0, 1, .utf8, 0⟩⟩
      1 = .ok () ∧
    Reader.pagesTotal ⟨List.replicate 112 0, ⟨112, 0, 0, 1, .utf8, 0⟩⟩ =
      .ok 1 ∧
    ¬((1 : Nat) = 0 ∨ 1 < 1 ∨
      (List.replicate 112 (0 : Nat)).length < (1 - 1) * 112 + 112) :=
  ⟨rfl, rfl, rfl, by decide⟩

/-- C4 (amended): when `pages_total()` evaluates — i.e. its division by
`page_size` does not panic — `validate_page_bounds` errors exactly when
`n = 0`, or `n > pages_total()`, or `(n-1)·page_size + page_size`
exceeds the image length, and every accessor errors whenever that
condition holds ("if" direction); `pages_total()` is the declared size
when non-zero with matching change counters, else
`image_length / page_size`, panicking when `page_size` is 0, and that
panic propagates through `validate_page_bounds` and every accessor.
The "only if" direction fails: an accessor may also error on an
in-bounds page whose content fails to parse. -/
theorem c4_bounds_amended :
    (∀ (r : Reader) (n t : Nat), r.pagesTotal = .ok t →
      (Reader.validatePageBounds r n = .ok () ↔
        ¬(n = 0 ∨ t < n ∨
          r.bytes.length < (n - 1) * r.dbHeader.pageSize +
            r.dbHeader.pageSize))) ∧
    (∀ r : Reader, r.pagesTotal =
      if r.dbHeader.dbSize ≠ 0 ∧
          r.dbHeader.fileChangeCounter = r.dbHeader.versionValidForNumber then
        .ok r.dbHeader.dbSize
      else if r.dbHeader.pageSize = 0 then .error .panic
      else .ok (r.bytes.length / r.dbHeader.pageSize)) ∧
    (∀ (r : Reader) (n : Nat) (units : List OverflowUnit) (e : Fail),
      r.pagesTotal = .error e →
      Reader.validatePageBounds r n = .error e ∧
      r.getBtreePage n = .error e ∧
      r.getOverflowPage units n = .error e ∧
      r.getTrunkFreelistPage n = .error e ∧
      r.getLeafFreelistPage n = .error e) ∧
    (∀ (r : Reader) (n t : Nat) (units : List OverflowUnit),
      r.pagesTotal = .ok t →
      (n = 0 ∨ t < n ∨
        r.bytes.length < (n - 1) * r.dbHeader.pageSize +
          r.dbHeader.pageSize) →
      r.getBtreePage n = .error .err ∧
      r.getOverflowPage units n = .error .err ∧
      r.getTrunkFreelistPage n = .error .err ∧
      r.getLeafFreelistPage n = .error .err) := by
  have hval : ∀ (r : Reader) (n t : Nat), r.pagesTotal = .ok t →
      (n = 0 ∨ t < n ∨
        r.bytes.length < (n - 1) * r.dbHeader.pageSize +
          r.dbHeader.pageSize) →
      Reader.validatePageBounds r n = .error .err := by
    intro r n t ht hcond
    simp only [Reader.validatePageBounds, Reader.pageOffset, ht, resBind_ok]
    split_ifs with h1 h2
    · rfl
    · rfl
    · exfalso
      rcases hcond with h | h | h
      · exact h1 (Or.inr h)
      · exact h1 (Or.inl h)
      · exact h2 h
  refine ⟨?_, fun r => rfl, ?_, ?_⟩
  · intro r n t ht
    simp only [Reader.validatePageBounds, Reader.pageOffset, ht, resBind_ok]
    split_ifs with h1 h2
    · constructor
      · intro h; exact absurd h (by simp)
      · intro h
        exact absurd (h1.elim (fun a => Or.inr (Or.inl a)) Or.inl) h
    · constructor
      · intro h; exact absurd h (by simp)
      · intro h; exact absurd (Or.inr (Or.inr h2)) h
    · constructor
      · intro _ hdisj
        rcases hdisj with h | h | h
        · exact h1 (Or.inr h)
        · exact h1 (Or.inl h)
        · exact h2 h
      · intro _; rfl
  · intro r n units e he
    have hv : Reader.validatePageBounds r n = .error e := by
      simp only [Reader.validatePageBounds, he, resBind_err]
    have hps : r.pageSlice n = .error e := by
      simp only [Reader.pageSlice, hv, resBind_err]
    exact ⟨hv,
      by simp only [Reader.getBtreePage, hps, resBind_err],
      by simp only [Reader.getOverflowPage, hps, resBind_err],
      by simp only [Reader.getTrunkFreelistPage, hps, resBind_err],
      by simp only [Reader.getLeafFreelistPage, hps, resBind_err]⟩
  · intro r n t units ht hcond
    have hps : r.pageSlice n = .error .err := by
      simp only [Reader.pageSlice, hval r n t ht hcond, resBind_err]
    exact ⟨by simp only [Reader.getBtreePage, hps, resBind_err],
      by simp only [Reader.getOverflowPage, hps, resBind_err],
      by simp only [Reader.getTrunkFreelistPage, hps, resBind_err],
      by simp only [Reader.getLeafFreelistPage, hps, resBind_err]⟩

/-- C4 witness: the "if" direction at a concrete out-of-range page
number (5 of 1), and the division-by-zero panic propagation at a
concrete Reader whose page size is 0. -/
theorem c4_bounds_amended_witness :
    (Reader.getBtreePage ⟨[], ⟨1, 0, 0, 1, .utf8, 0⟩⟩ 5 = .error .err ∧
      Reader.getOverflowPage ⟨[], ⟨1, 0, 0, 1, .utf8, 0⟩⟩ [] 5 =
        .error .err ∧
      Reader.getTrunkFreelistPage ⟨[], ⟨1, 0, 0, 1, .utf8, 0⟩⟩ 5 =
        .error .err ∧
      Reader.getLeafFreelistPage ⟨[], ⟨1, 0, 0, 1, .utf8, 0⟩⟩ 5 =
        .error .err) ∧
    (Reader.validatePageBounds ⟨[3], ⟨0, 0, 0, 0, .utf8, 0⟩⟩ 1 =
        .error .panic ∧
      Reader.getBtreePage ⟨[3], ⟨0, 0, 0, 0, .utf8, 0⟩⟩ 1 = .error .panic ∧
      Reader.getOverflowPage ⟨[3], ⟨0, 0, 0, 0, .utf8, 0⟩⟩ [] 1 =
        .error .panic ∧
      Reader.getTrunkFreelistPage ⟨[3], ⟨0, 0, 0, 0, .utf8, 0⟩⟩ 1 =
        .error .panic ∧
      Reader.getLeafFreelistPage ⟨[3], ⟨0, 0, 0, 0, .utf8, 0⟩⟩ 1 =
        .error .panic) :=
  ⟨c4_bounds_amended.2.2.2 ⟨[], ⟨1, 0, 0, 1, .utf8, 0⟩⟩ 5 1 [] rfl
      (by decide),
    c4_bounds_amended.2.2.1 ⟨[3], ⟨0, 0, 0, 0, .utf8, 0⟩⟩ 1 [] .panic rfl⟩

/-- C6: a raw 16-bit page-size field of 1 is decoded to 65536 by the
header parse, and the Reader's page slicing and page-count fallback use
65536 bytes per page.  (The header decoder is modelled from the spec:
the parser crate's `header.rs` is absent from the sources.) -/
theorem c6_page_size_sentinel :
    (∀ (hdr : List Nat) (h : DBHeader),
      slcBE hdr 16 2 = .ok 1 → DBHeader.tryFrom hdr = .ok h →
      h.pageSize = 65536) ∧
    (∀ (bytes : List Nat) (r : Reader) (n : Nat),
      Reader.new bytes = .ok r → slcBE (bytes.take 100) 16 2 = .ok 1 →
      r.dbHeader.pageSize = 65536 ∧
      r.pageOffset n = (n - 1) * 65536 ∧
      (¬(r.dbHeader.dbSize ≠ 0 ∧
          r.dbHeader.fileChangeCounter = r.dbHeader.versionValidForNumber) →
        r.pagesTotal = .ok (bytes.length / 65536))) := by
  have part1 : ∀ (hdr : List Nat) (h : DBHeader),
      slcBE hdr 16 2 = .ok 1 → DBHeader.tryFrom hdr = .ok h →
      h.pageSize = 65536 := by
    intro hdr h hraw htf
    simp only [DBHeader.tryFrom, hraw, resBind_ok, resBind_eq_ok] at htf
    obtain ⟨reserved, -, fcc, -, dbSize, -, encRaw, -, hrest⟩ := htf
    split_ifs at hrest with e1 e2 e3
    · simp only [resBind_eq_ok] at hrest
      obtain ⟨vvfn, -, hfin⟩ := hrest
      simp only [Except.ok.injEq] at hfin
      rw [← hfin]
    · simp only [resBind_eq_ok] at hrest
      obtain ⟨vvfn, -, hfin⟩ := hrest
      simp only [Except.ok.injEq] at hfin
      rw [← hfin]
    · simp only [resBind_eq_ok] at hrest
      obtain ⟨vvfn, -, hfin⟩ := hrest
      simp only [Except.ok.injEq] at hfin
      rw [← hfin]
    · exact Except.noConfusion hrest
  refine ⟨part1, ?_⟩
  intro bytes r n hnew hraw
  simp only [Reader.new] at hnew
  split_ifs at hnew with hlen
  simp only [resBind_eq_ok] at hnew
  obtain ⟨dbh, htf, hok⟩ := hnew
  simp only [Except.ok.injEq] at hok
  subst hok
  have hps := part1 (bytes.take 100) dbh hraw htf
  refine ⟨hps, ?_, ?_⟩
  · simp only [Reader.pageOffset, hps]
  · intro hnv
    simp only [Reader.pagesTotal] at hnv ⊢
    rw [if_neg hnv, hps]
    rw [if_neg (by omega)]

/-- C6 witness: the decoded header of `sentinelHdrBytes` reports page
size 65536 and the resulting Reader slices with it. -/
theorem c6_page_size_sentinel_witness :
    (⟨sentinelHdrBytes, ⟨65536, 0, 0, 0, .utf8, 0⟩⟩ : Reader).dbHeader.pageSize
        = 65536 ∧
    Reader.pageOffset ⟨sentinelHdrBytes, ⟨65536, 0, 0, 0, .utf8, 0⟩⟩ 3 =
      (3 - 1) * 65536 ∧
    Reader.pagesTotal ⟨sentinelHdrBytes, ⟨65536, 0, 0, 0, .utf8, 0⟩⟩ =
      .ok (sentinelHdrBytes.length / 65536) := by
  have h := c6_page_size_sentinel.2 sentinelHdrBytes
    ⟨sentinelHdrBytes, ⟨65536, 0, 0, 0, .utf8, 0⟩⟩ 3 rfl rfl
  exact ⟨h.1, h.2.1, h.2.2 (by decide)⟩

/-- C7: evaluation of the page decoder at the failing input.  A
leaf-index page (type byte 10) with one cell makes `Page::try_from`
reach the `unreachable!("Cell isn't yet implemented for this type.")`
arm — a panic, not a parse —, although the cell decoder `Cell::new`
(which `Page::try_from` never calls) parses the same leaf-index and
interior-index cell data correctly. -/
theorem c7_index_page_unreachable :
    Page.tryFrom ⟨64, 0, 0, 1, .utf8, 0⟩ 2 indexPageBytes = .error .panic ∧
    Cell.new .leafIndex ⟨512, 0, 0, 1, .utf8, 0⟩ [5, 2, 1, 170, 0, 0] =
      .ok (.indexLeaf ⟨⟨5, [5]⟩, ⟨⟨⟨2, [2]⟩, [⟨1, [1]⟩]⟩,
        [⟨.i8 (-86), some [170]⟩]⟩, none⟩) ∧
    Cell.new .interiorIndex ⟨512, 0, 0, 1, .utf8, 0⟩
        ([0, 0, 0, 7] ++ [5, 2, 1, 170, 0, 0]) =
      .ok (.indexInterior ⟨7, ⟨5, [5]⟩, ⟨⟨⟨2, [2]⟩, [⟨1, [1]⟩]⟩,
        [⟨.i8 (-86), some [170]⟩]⟩, none⟩) :=
  ⟨rfl, rfl, rfl⟩

/-- C9 counterexample: a one-page image whose overflow page points at
itself.  `pages_total() = 1` and every fetch succeeds, yet with fuel for
2 fetches the traversal still has not terminated (and
`c9_termination_amended` shows no amount of fuel ends it), refuting the
claimed `pages_total()` bound. -/
theorem c9_counterexample :
    followOverflow cycleReader 2 [] [] 1 = .error .nofuel ∧
    Reader.pagesTotal cycleReader = .ok 1 ∧
    Reader.getOverflowPage cycleReader [] 1 =
      .ok ⟨[], 1, [], some (List.replicate 12 0)⟩ :=
  ⟨by rfl, by rfl, by rfl⟩

/-- C9 (amended): when the traversal terminates normally it is because
it reached a page whose next-page pointer is 0 (errors, including
out-of-bounds pages, propagate); but the code imposes no
`pages_total()` bound and performs no cycle detection: on a cyclic
chain of valid pages — e.g. a self-pointing overflow page — the
recursion never terminates (every fuel is exhausted). -/
theorem c9_termination_amended :
    (∀ (r : Reader) (fuel : Nat) (acc : List OverflowPage)
      (units : List OverflowUnit) (n : Nat) (pages : List OverflowPage),
      followOverflow r fuel acc units n = .ok pages →
      ∃ last, pages.getLast? = some last ∧ last.nextPage = 0) ∧
    (∀ (fuel : Nat) (acc : List OverflowPage),
      followOverflow cycleReader fuel acc [] 1 = .error .nofuel) := by
  constructor
  · intro r fuel
    induction fuel with
    | zero =>
      intro acc units n pages h
      exact absurd h (by simp [followOverflow])
    | succ f ih =>
      intro acc units n pages h
      simp only [followOverflow] at h
      rcases hop : r.getOverflowPage units n with e | opage <;>
        simp only [hop, resBind_ok, resBind_err] at h
      · exact absurd h (by simp)
      · by_cases hnp : opage.nextPage = 0
        · simp only [hnp, ite_true, if_pos] at h
          simp only [Except.ok.injEq] at h
          subst h
          exact ⟨opage, by simp, hnp⟩
        · simp only [hnp, ite_false, if_neg] at h
          exact ih (acc ++ [opage]) opage.overflowUnits opage.nextPage pages h
  · intro fuel
    induction fuel with
    | zero => intro acc; rfl
    | succ f ih =>
      intro acc
      have hop : Reader.getOverflowPage cycleReader [] 1 =
          .ok ⟨[], 1, [], some (List.replicate 12 0)⟩ := by rfl
      simp only [followOverflow, hop, resBind_ok]
      exact ih _

/-- C9 witness: the normal-termination case at a concrete single-page
chain ending with next-page pointer 0. -/
theorem c9_termination_amended_witness :
    ∃ last, List.getLast?
        [(⟨[], 0, [], some (List.replicate 12 0)⟩ : OverflowPage)] =
        some last ∧ last.nextPage = 0 :=
  c9_termination_amended.1 endReader 1 [] [] 1
    [⟨[], 0, [], some (List.replicate 12 0)⟩] (by rfl)

/-- C10 counterexample: in `spillReader`, the schema row's table is
rooted at page 2, whose single cell declares an overflow chain starting
at the out-of-range page 99; fetching that page fails, yet
`get_btrees()` succeeds (`if let Ok` in `extend_overflow` silently
discards the failure) and returns a forest whose node for page 2
carries no overflow — a partially decoded forest with the failing
overflow chain silently dropped. -/
theorem c10_counterexample :
    Reader.getOverflowPage spillReader [⟨221, 462⟩] 99 = .error .err ∧
    (Reader.getBtreePage spillReader 2).map
        (fun p => p.cells.map Cell.overflowOf) =
      .ok [some ⟨99, [⟨221, 462⟩]⟩] ∧
    (Reader.getBtrees spillReader 9).map
        (fun ts => (ts.length, ts.map (fun t => t.root.overflowOf))) =
      .ok (2, [none, none]) :=
  ⟨by rfl, by rfl, by rfl⟩

/-- C10 (amended): failures of a node's own page fetch do propagate —
through `BTreeNode::new` and from there through `get_btrees()` (whose
`let _ = self.collect_cells(..)` discards the traversal error, but the
master-tree construction refetches page 1) — whereas failures while
walking a cell's overflow chain are silently swallowed
(`c10_counterexample`). -/
theorem c10_propagation_amended :
    (∀ (r : Reader) (fuel n : Nat) (e : Fail),
      r.getBtreePage n = .error e →
      BTreeNode.new r (fuel + 1) n = .error e) ∧
    (∀ (r : Reader) (fuel : Nat) (e : Fail),
      r.getBtreePage 1 = .error e → e ≠ .nofuel →
      Reader.getBtrees r (fuel + 1) = .error e) := by
  have hnode : ∀ (r : Reader) (fuel n : Nat) (e : Fail),
      r.getBtreePage n = .error e →
      BTreeNode.new r (fuel + 1) n = .error e := by
    intro r fuel n e h
    simp only [BTreeNode.new, h, resBind_err]
  refine ⟨hnode, ?_⟩
  intro r fuel e h hne
  have hc : collectCells r (fuel + 1) 1 [] = ([], some e) := by
    simp only [collectCells, h]
  simp only [Reader.getBtrees, hc]
  rw [if_neg (by simpa using hne)]
  simp only [hnode r fuel 1 e h, resBind_err]

/-- C10 witness: propagation at a concrete Reader whose page 1 read
fails (empty image). -/
theorem c10_propagation_amended_witness :
    BTreeNode.new ⟨[], ⟨1, 0, 0, 1, .utf8, 0⟩⟩ 1 1 = .error .err ∧
    Reader.getBtrees ⟨[], ⟨1, 0, 0, 1, .utf8, 0⟩⟩ 1 = .error .err :=
  ⟨c10_propagation_amended.1 ⟨[], ⟨1, 0, 0, 1, .utf8, 0⟩⟩ 0 1 .err rfl,
    c10_propagation_amended.2 ⟨[], ⟨1, 0, 0, 1, .utf8, 0⟩⟩ 0 .err rfl
      (by decide)⟩

end SqliteRepr
